import Mathlib

/-!
# Verification of the Trello-to-Pivotal CSV transformer

A shallow embedding of `src/trello_to_pivotal.py` (a Python 2 script) and
proofs about it.  Python strings are Lean `String`s, Python ints are `Int`/
`Nat`, Python dicts are association lists, exceptions are `Except`.
Positions (`pos` fields, floats in the export) are modelled as `Int`:
only their ordering matters to the program and float negation/comparison
on such values coincides with the ordering of the represented numbers.
-/

deriving instance DecidableEq for Except

namespace TrelloToPivotal

/-! ## Data model (the board structures the script reads) -/

/-- A check item inside a checklist: `{id, name, state}`. -/
structure CheckItem where
  id : String
  name : String
  state : String
deriving DecidableEq

/-- A checklist: `{name, checkItems}`. -/
structure Checklist where
  name : String
  checkItems : List CheckItem
deriving DecidableEq

/-- A card of the board.  `labels` holds the label *names* (the script
immediately projects `card['labels']` to names).  Optional JSON fields are
`Option`.  `checkItemStates` entries are `(idCheckItem, state)` pairs. -/
structure Card where
  id : String
  name : String
  desc : Option String
  url : String
  idList : String
  pos : Int
  idMembers : List String
  labels : List String
  checklists : Option (List Checklist)
  checkItemStates : Option (List (String × String))
  comments : Option Nat
deriving DecidableEq

/-- The part of a CSV row the transformer computes for one card
(`row = [name, description, owner, owner, join(labels), state, type,
estimate] + tasks`).  `labels` is kept as a list; the CSV cell is its
comma-join.  `tasks` is the flat interleaved `[name, status, ...]` list,
exactly as the script builds it. -/
structure Row where
  title : String
  description : String
  ownedBy : String
  requestedBy : String
  labels : List String
  currentState : String
  storyType : String
  estimate : Option Int
  tasks : List String
deriving DecidableEq

/-- Run-time errors of the script, as named by the spec:
`malformedInput` = a `KeyError` on the list/member lookup tables;
`valueError` = Python `ValueError` from `int(x)` on a non-numeric string;
`nameErrorUnbound` = Python `NameError`: the local `checkItemStates` is
read before any card has bound it;
`unknownCheckboxState` = `KeyError` on `CHECKBOX_STATES`
(the spec's `UnknownCheckboxStateError`). -/
inductive TransformError where
  | malformedInput (key : String)
  | valueError (s : String)
  | nameErrorUnbound
  | unknownCheckboxState (s : String)
deriving DecidableEq

/-! ## Python string / int primitives -/

/-- The characters Python 2 `str.strip()` removes. -/
def isPySpace (c : Char) : Bool :=
  c = ' ' || c = '\t' || c = '\n' || c = '\r' || c = '\x0b' || c = '\x0c'

/-- Python `str.strip()`. -/
def pyStrip (s : String) : String :=
  ⟨((s.data.dropWhile isPySpace).reverse.dropWhile isPySpace).reverse⟩

/-- Helper for `pySplitSlash`; `cur` holds the current field reversed. -/
def splitSlashAux (cur : List Char) : List Char → List (List Char)
  | [] => [cur.reverse]
  | c :: rest =>
    if c = '/' then cur.reverse :: splitSlashAux [] rest
    else splitSlashAux (c :: cur) rest

/-- Python `s.split('/')`: separators delimit (possibly empty) fields;
the empty string yields `[""]`. -/
def pySplitSlash (s : String) : List String :=
  (splitSlashAux [] s.data).map (fun cs => ⟨cs⟩)

/-- Value of a digit run. -/
def digitsVal (ds : List Char) : Nat :=
  ds.foldl (fun a c => a * 10 + (c.toNat - '0'.toNat)) 0

/-- Python 2 `int(s)` (base 10) on an already-stripped string: an optional
sign followed by at least one ASCII digit; anything else raises
`ValueError` (`none` here).  (`int` also tolerates surrounding whitespace,
but every call site strips first.) -/
def pyInt (s : String) : Option Int :=
  match s.data with
  | '-' :: rest =>
      if rest ≠ [] ∧ rest.all Char.isDigit then some (-(digitsVal rest : Int)) else none
  | '+' :: rest =>
      if rest ≠ [] ∧ rest.all Char.isDigit then some (digitsVal rest) else none
  | cs =>
      if cs ≠ [] ∧ cs.all Char.isDigit then some (digitsVal cs) else none

/-- Python `str(i)` for an int. -/
def pyIntStr (i : Int) : String :=
  if i < 0 then "-" ++ Nat.repr i.natAbs else Nat.repr i.natAbs

/-! ## The title regexes, embedded as scanners

`NAME_TAG_RES = [r'^(?P<tags>.+?): (?P<name>.+)',
                 r'^\[(?P<tags>.+?)\]:? (?P<name>.+)']`
and the Scrum-for-Trello pattern `^\((\d+?)\) (.+)`.
`.` does not match a newline; `.+?` is non-greedy with backtracking, so the
match uses the shortest tag prefix whose continuation succeeds. -/

/-- Scanner for `^(?P<tags>.+?): (?P<name>.+)` after the first character
(the mandatory first tag character) has been consumed into `pre`
(reversed).  At each position: if the remaining input starts with
`": "` followed by a non-newline name character the match succeeds with
the shortest tag; otherwise the tag extends over the current character
provided it is not a newline. -/
def scanTagColon (pre : List Char) : List Char → Option (List Char × List Char)
  | [] => none
  | c :: rest =>
    if c = ':' then
      match rest with
      | ' ' :: d :: rest2 =>
        if d ≠ '\n' then some (pre.reverse, d :: rest2.takeWhile (· ≠ '\n'))
        else scanTagColon (c :: pre) rest
      | _ => scanTagColon (c :: pre) rest
    else if c = '\n' then none else scanTagColon (c :: pre) rest

/-- `re.match` for the first tag pattern: returns `(tags, name)`. -/
def matchTagColon (s : String) : Option (String × String) :=
  match s.data with
  | [] => none
  | c :: rest =>
    if c = '\n' then none
    else
      match scanTagColon [c] rest with
      | some (t, n) => some (⟨t⟩, ⟨n⟩)
      | none => none

/-- Scanner for `^\[(?P<tags>.+?)\]:? (?P<name>.+)` after `[` and the first
tag character were consumed.  On `]` the greedy `:?` first tries `": "`,
then a bare space; on failure the tag extends over the `]`. -/
def scanBracket (pre : List Char) : List Char → Option (List Char × List Char)
  | [] => none
  | c :: rest =>
    if c = ']' then
      match rest with
      | ':' :: ' ' :: d :: rest2 =>
        if d ≠ '\n' then some (pre.reverse, d :: rest2.takeWhile (· ≠ '\n'))
        else scanBracket (c :: pre) rest
      | ' ' :: d :: rest2 =>
        if d ≠ '\n' then some (pre.reverse, d :: rest2.takeWhile (· ≠ '\n'))
        else scanBracket (c :: pre) rest
      | _ => scanBracket (c :: pre) rest
    else if c = '\n' then none else scanBracket (c :: pre) rest

/-- `re.match` for the bracketed tag pattern. -/
def matchBracket (s : String) : Option (String × String) :=
  match s.data with
  | '[' :: c :: rest =>
    if c = '\n' then none
    else
      match scanBracket [c] rest with
      | some (t, n) => some (⟨t⟩, ⟨n⟩)
      | none => none
  | _ => none

/-- `re.search('^\((\d+?)\) (.+)', name)`: anchored, so a match at the
start.  `\d+?` extends only over digits, hence it is the full digit run;
returns group 2 (the stripped title). -/
def scrumMatch (s : String) : Option String :=
  match s.data with
  | '(' :: rest =>
    let ds := rest.takeWhile Char.isDigit
    match ds, rest.dropWhile Char.isDigit with
    | [], _ => none
    | _ :: _, ')' :: ' ' :: d :: rest3 =>
      if d = '\n' then none else some ⟨d :: rest3.takeWhile (· ≠ '\n')⟩
    | _ :: _, _ => none
  | _ => none

/-! ## Configuration tables (module-level constant dicts of the script) -/

/-- `LIST_STATES`: list name → workflow state; `'epic'` is a sentinel. -/
def LIST_STATES : List (String × String) :=
  [("Epics / Triage", "epic"), ("Backlog", "unstarted"), ("Next Up", "unstarted"),
   ("In Progress Now", "started"), ("Blocked", "started"), ("Feedback", "delivered"),
   ("Resolved", "accepted"), ("Unresolved", "accepted"), ("Closed", "accepted")]

/-- `LIST_ESTIMATES`: list name → default estimate (empty in the script). -/
def LIST_ESTIMATES : List (String × Int) := []

/-- `LABEL_ESTIMATES`, in declared order. -/
def LABEL_ESTIMATES : List (String × Int) := [("Short", 1), ("Medium", 2)]

/-- `CHECKBOX_STATES`: raw check-item state → CSV status text. -/
def CHECKBOX_STATES : List (String × String) :=
  [("incomplete", "not completed"), ("complete", "completed")]

/-- The configuration surface of the transformer: the three tables plus the
`--default-estimate` argument.  The script keeps the tables as module
globals; they are passed explicitly here (Python dict literals with
distinct keys iterate in their declared order in this model). -/
structure Config where
  listStates : List (String × String)
  listEstimates : List (String × Int)
  labelEstimates : List (String × Int)
  defaultEstimate : Int
deriving DecidableEq

/-- The script's tables with a given `--default-estimate`. -/
def defaultConfig (d : Int) : Config :=
  ⟨LIST_STATES, LIST_ESTIMATES, LABEL_ESTIMATES, d⟩

/-! ## Tag filtering and title extraction -/

/-- One step of
`filter(lambda x: str(int(x)) != x, ...)`: `int(x)` raises `ValueError`
on a non-numeric segment; otherwise the segment is kept when it differs
from the decimal re-rendering of its parse. -/
def keepTag (x : String) : Except TransformError Bool :=
  match pyInt x with
  | none => .error (.valueError x)
  | some i => .ok (decide (pyIntStr i ≠ x))

/-- The eager Python 2 `filter` over the stripped segments, left to right,
propagating the first `ValueError`. -/
def filterTags : List String → Except TransformError (List String)
  | [] => .ok []
  | x :: xs => do
    let b ← keepTag x
    let rest ← filterTags xs
    .ok (if b then x :: rest else rest)

/-- The label segments a matched tag group contributes:
`filter(lambda x: str(int(x)) != x, map(lambda x: x.strip(), tags.split('/')))`. -/
def tagLabels (tags : String) : Except TransformError (List String) :=
  filterTags ((pySplitSlash tags).map pyStrip)

/-- The whole title step: first the Scrum-for-Trello estimate prefix is
stripped (no labels); otherwise the two `NAME_TAG_RES` patterns are tried
in order, the first match rewriting the title and contributing tag labels;
otherwise the title is kept verbatim.  Returns `(new title, extra labels)`. -/
def extractNameTags (name : String) : Except TransformError (String × List String) :=
  match scrumMatch name with
  | some nm => .ok (nm, [])
  | none =>
    match matchTagColon name with
    | some (tags, nm) => (tagLabels tags).map (fun ls => (nm, ls))
    | none =>
      match matchBracket name with
      | some (tags, nm) => (tagLabels tags).map (fun ls => (nm, ls))
      | none => .ok (name, [])

/-! ## Estimate inference -/

/-- The estimate block: start from the per-list default; an epic, or a
feature whose resolved state is unstarted/unscheduled, is forced to no
estimate; otherwise the first `labelEstimates` entry (in declared order)
whose label the card carries wins, else the per-list default, else the
configured default. -/
def computeEstimate (cfg : Config) (storyType currentState listName : String)
    (labels : List String) : Option Int :=
  let est0 := cfg.listEstimates.lookup listName
  if storyType = "epic" then none
  else if storyType = "feature" ∧ (currentState = "unstarted" ∨ currentState = "unscheduled") then
    none
  else
    match cfg.labelEstimates.find? (fun p => labels.contains p.1) with
    | some p => some p.2
    | none => some (est0.getD cfg.defaultEstimate)

/-! ## Task flattening -/

/-- `CHECKBOX_STATES[s]`: a `KeyError` on an unknown state is the spec's
`UnknownCheckboxStateError`. -/
def checkboxStatus (s : String) : Except TransformError String :=
  match CHECKBOX_STATES.lookup s with
  | some v => .ok v
  | none => .error (.unknownCheckboxState s)

/-- `checkItemStates.get(item['id'], item['state'])`, where the local
`checkItemStates` may be unbound (`none`): reading it then raises
`NameError`.  The dict `{e['idCheckItem']: e['state'] for e in ...}` keeps
the last entry for a duplicated key, hence the reversed lookup. -/
def effectiveState (ckVar : Option (List (String × String))) (item : CheckItem) :
    Except TransformError String :=
  match ckVar with
  | none => .error .nameErrorUnbound
  | some m => .ok ((m.reverse.lookup item.id).getD item.state)

/-- The inner loop over a checklist's items: each item contributes its
prefixed name then its mapped status to the flat `tasks` list. -/
def flattenItems (ckVar : Option (List (String × String))) (pre : String) :
    List CheckItem → Except TransformError (List String)
  | [] => .ok []
  | it :: rest => do
    let st ← effectiveState ckVar it
    let stStr ← checkboxStatus st
    let tl ← flattenItems ckVar pre rest
    .ok ((pre ++ it.name) :: stStr :: tl)

/-- One checklist: the name prefix is suppressed for the default name
`"Checklist"`, else it is `"<name>: "`. -/
def flattenChecklist (ckVar : Option (List (String × String))) (cl : Checklist) :
    Except TransformError (List String) :=
  flattenItems ckVar (if cl.name ≠ "Checklist" then cl.name ++ ": " else "") cl.checkItems

/-- All checklists of a card, in order. -/
def flattenChecklists (ckVar : Option (List (String × String))) :
    List Checklist → Except TransformError (List String)
  | [] => .ok []
  | cl :: rest => do
    let a ← flattenChecklist ckVar cl
    let b ← flattenChecklists ckVar rest
    .ok (a ++ b)

/-- The effective raw state of a check item under a bound override map:
the override keyed by the item's id when present, else the item's own
embedded state. -/
def effState (m : List (String × String)) (item : CheckItem) : String :=
  (m.reverse.lookup item.id).getD item.state

/-! ## The per-card transformer -/

/-- The body of the card loop for one card, given the board-model lookups
(`lists` : id → name, `members` : id → full name) and the current binding
of the loop-local `checkItemStates` variable (`none` = still unbound).
Missing `lists`/`members` keys raise `KeyError` (the spec's
`MalformedInputError`).  Evaluation order follows the script: list lookup,
title/tag extraction, estimate, list-name label, description, owner,
tasks. -/
def transformCard (cfg : Config) (lists members : List (String × String))
    (ckVar : Option (List (String × String))) (card : Card) :
    Except TransformError Row :=
  match lists.lookup card.idList with
  | none => .error (.malformedInput card.idList)
  | some listName =>
    let state0 := (cfg.listStates.lookup listName).getD "unscheduled"
    let currentState := if state0 = "epic" then "unscheduled" else state0
    let storyType := if state0 = "epic" then "epic" else "feature"
    match extractNameTags card.name with
    | .error e => .error e
    | .ok (name, extra) =>
      let labels1 := card.labels ++ extra
      let estimate := computeEstimate cfg storyType currentState listName labels1
      let labels2 := if (cfg.listStates.lookup listName).isNone then labels1 ++ [listName]
        else labels1
      let origDesc := card.desc.getD ""
      let descPart := if origDesc ≠ "" then origDesc ++ "\n" else ""
      match (match card.idMembers with
             | [] => Except.ok ""
             | m :: _ =>
               match members.lookup m with
               | some n => Except.ok n
               | none => Except.error (TransformError.malformedInput m)) with
      | .error e => .error e
      | .ok owner =>
        match (match card.checklists with
               | none => Except.ok []
               | some cls => flattenChecklists ckVar cls) with
        | .error e => .error e
        | .ok tasks =>
          .ok
            { title := name
              description := descPart ++ "Imported from " ++ card.url
              ownedBy := owner
              requestedBy := owner
              labels := labels2
              currentState := currentState
              storyType := storyType
              estimate := estimate
              tasks := tasks }

/-- The card loop.  `checkItemStates` is rebound only when the card has
the field; otherwise the binding (possibly from an *earlier* card, or
still unbound) is reused — this models the script's loop-local variable
faithfully. -/
def runCards (cfg : Config) (lists members : List (String × String)) :
    Option (List (String × String)) → List Card → Except TransformError (List Row)
  | _, [] => .ok []
  | ckVar, c :: cs =>
    let ckVar' := match c.checkItemStates with
      | some l => some l
      | none => ckVar
    do
      let r ← transformCard cfg lists members ckVar' c
      let rs ← runCards cfg lists members ckVar' cs
      .ok (r :: rs)

/-! ## Header sizing, sorting, pagination -/

/-- Total check-item count of one card (0 when `checklists` is absent). -/
def totalCheckItems (card : Card) : Nat :=
  match card.checklists with
  | some cls => (cls.map (fun cl => cl.checkItems.length)).sum
  | none => 0

/-- `max_num_tasks`: the script *accumulates* every card's task count. -/
def maxNumTasks (cards : List Card) : Nat :=
  cards.foldl (fun acc c => acc + totalCheckItems c) 0

/-- `max_comments`: running maximum over the cards that carry the field. -/
def maxComments (cards : List Card) : Nat :=
  cards.foldl (fun acc c => match c.comments with
    | some n => max acc n
    | none => acc) 0

/-- The 8 fixed header columns. -/
def fixedHeader : List String :=
  ["Title", "Description", "Owned By", "Requested By", "Labels",
   "Current State", "Type", "Estimate"]

/-- The emitted header row:
`fixed + ['Task', 'Task Status'] * max_num_tasks + ['Comment'] * max_comments`. -/
def headerRow (cards : List Card) : List String :=
  fixedHeader ++ (List.replicate (maxNumTasks cards) ["Task", "Task Status"]).flatten
    ++ List.replicate (maxComments cards) "Comment"

/-- The sort key `(-listorders[card.idList], card.pos)`; `lp` is the
board model's list-id → position map as a function. -/
def cardKey (lp : String → Int) (c : Card) : Int × Int :=
  (-(lp c.idList), c.pos)

/-- Python's lexicographic tuple comparison on the sort keys. -/
def keyLe (lp : String → Int) (a b : Card) : Prop :=
  (cardKey lp a).1 < (cardKey lp b).1 ∨
    ((cardKey lp a).1 = (cardKey lp b).1 ∧ (cardKey lp a).2 ≤ (cardKey lp b).2)

instance keyLeDecidable (lp : String → Int) : DecidableRel (keyLe lp) := fun _a _b =>
  inferInstanceAs (Decidable (_ ∨ _))

/-- `all_cards.sort(key=...)`: Python's `list.sort` is a stable sort, and
for a total preorder the stable sort is unique, so insertion sort models
it exactly. -/
def sortCards (lp : String → Int) (cards : List Card) : List Card :=
  List.insertionSort (keyLe lp) cards

/-- `paginate(iterable, num)` with Python 2 floor division:
`[iterable[i*num:(i+1)*num] for i in range(len(iterable)/num + 1) if ...]`. -/
def paginate {α : Type} (l : List α) (num : Nat) : List (List α) :=
  ((List.range (l.length / num + 1)).map (fun i => (l.drop (i * num)).take num)).filter
    (fun c => !c.isEmpty)

/-- Structural chunking, used to reason about `paginate` by induction (for
`0 < num` the two agree, see `paginate_eq_chunkPages`). -/
def chunkPages {α : Type} (num : Nat) : List α → List (List α)
  | [] => []
  | a :: as => (a :: as).take num :: chunkPages num (as.drop (num - 1))
termination_by l => l.length
decreasing_by simp only [List.length_drop, List.length_cons]; omega

/-! ## Concrete sample inputs used in the theorems -/

/-- A minimal card, varied below with record updates. -/
def sampleCard : Card where
  id := "c1"
  name := "Plain title"
  desc := some "Body"
  url := "https://trello.example/c/abc"
  idList := "l1"
  pos := 3
  idMembers := []
  labels := []
  checklists := none
  checkItemStates := none
  comments := none

/-- A card whose title is the spec's first tag-extraction example. -/
def bugTitleCard : Card := { sampleCard with name := "Bug: Fix login" }

/-- A card with a per-item override collection but no checklists. -/
def overrideOnlyCard : Card :=
  { sampleCard with id := "a", checkItemStates := some [("i1", "complete")] }

/-- A card with one incomplete check item and *no* override collection. -/
def checklistOnlyCard : Card :=
  { sampleCard with
    id := "b"
    checklists := some [Checklist.mk "Checklist" [CheckItem.mk "i1" "T" "incomplete"]] }

/-! ## Theorems -/

/-- C1: the claimed tag extraction does not happen.  The filter
`filter(lambda x: str(int(x)) != x, ...)` applies `int` to *every*
stripped tag segment, so the non-numeric segments the claim says are
appended as labels (`"Bug"`, `"Backend"`) make `int` raise `ValueError`
and the transform aborts.  (For the second title the colon pattern also
matches first, so the tag text is `"[123/Backend]"`, whose first segment
is `"[123"`.)  This evaluates the embedded code at both claimed inputs. -/
theorem C1_tag_extraction_crashes :
    extractNameTags "Bug: Fix login" = .error (.valueError "Bug") ∧
    extractNameTags "[123/Backend]: Crash on save" = .error (.valueError "[123") ∧
    transformCard (defaultConfig 0) [("l1", "Backlog")] [] none bugTitleCard =
      .error (.valueError "Bug") :=
  ⟨by decide, by decide, by decide⟩

/-- C2: missing `checkItemStates` is *not* treated as an empty override
map.  The loop only rebinds the variable when the field is present, so a
card that has checklists but no override collection reuses the previous
card's overrides (here: item `i1`, embedded state `incomplete`, is
reported `"completed"` because the *previous* card's collection says
`complete`), and the very first such card raises `NameError` because the
variable is still unbound. -/
theorem C2_override_not_reset :
    (runCards (defaultConfig 0) [("l1", "Backlog")] [] none
        [overrideOnlyCard, checklistOnlyCard]).map (fun rows => rows.map Row.tasks) =
      .ok [[], ["T", "completed"]] ∧
    runCards (defaultConfig 0) [("l1", "Backlog")] [] none [checklistOnlyCard] =
      .error .nameErrorUnbound :=
  ⟨by decide, by decide⟩

/-- An accumulating `foldl` of per-card task counts is the initial value
plus the sum over the mapped list. -/
theorem foldl_add_totalCheckItems (l : List Card) :
    ∀ n : Nat, l.foldl (fun acc c => acc + totalCheckItems c) n
      = n + (l.map totalCheckItems).sum := by
  induction l with
  | nil => intro n; simp
  | cons c cs ih =>
    intro n
    simp only [List.foldl_cons, List.map_cons, List.sum_cons, ih]
    omega

/-- The running-maximum `foldl` over present comment counts equals the
maximum of the initial value and the fold of the counts (absent = 0). -/
theorem foldl_max_comments (l : List Card) :
    ∀ n : Nat,
      l.foldl (fun acc c => match c.comments with | some k => max acc k | none => acc) n
        = max n ((l.map (fun c => c.comments.getD 0)).foldr max 0) := by
  induction l with
  | nil => intro n; simp
  | cons c cs ih =>
    intro n
    cases h : c.comments with
    | none => simp [List.foldl_cons, h, ih]
    | some k => simp [List.foldl_cons, h, ih, Nat.max_assoc]

/-- Length of the task-column block. -/
theorem flatten_replicate_length (n : Nat) :
    ((List.replicate n (["Task", "Task Status"] : List String)).flatten).length = 2 * n := by
  induction n with
  | zero => simp
  | succ m ih =>
    simp only [List.replicate_succ, List.flatten_cons, List.length_append, ih,
      List.length_cons, List.length_nil]
    omega

/-- C3: the emitted header is the 8 fixed columns, then one
`(Task, Task Status)` pair of columns per unit of `max_tasks`, then
`max_comments` comment columns, where `max_tasks` is the *sum* over all
cards of their total check-item count and `max_comments` is the maximum
over all cards of the comment count, 0 when absent. -/
theorem C3_header_layout (cards : List Card) :
    headerRow cards =
      fixedHeader ++
        (List.replicate ((cards.map totalCheckItems).sum) ["Task", "Task Status"]).flatten ++
        List.replicate ((cards.map (fun c => c.comments.getD 0)).foldr max 0) "Comment" ∧
    fixedHeader.length = 8 ∧
    (headerRow cards).length =
      8 + 2 * (cards.map totalCheckItems).sum +
        (cards.map (fun c => c.comments.getD 0)).foldr max 0 := by
  have ht : maxNumTasks cards = (cards.map totalCheckItems).sum := by
    simpa [maxNumTasks] using foldl_add_totalCheckItems cards 0
  have hc : maxComments cards = (cards.map (fun c => c.comments.getD 0)).foldr max 0 := by
    simpa [maxComments] using foldl_max_comments cards 0
  refine ⟨by rw [headerRow, ht, hc], rfl, ?_⟩
  rw [headerRow, ht, hc]
  simp [List.length_append, flatten_replicate_length, List.length_replicate, fixedHeader]
  omega

/-- Paginating an empty sequence yields no pages. -/
theorem paginate_nil {α : Type} (num : Nat) : paginate ([] : List α) num = [] := by
  simp [paginate]

/-- Unfolding step of `paginate` on a non-empty sequence with positive
page size: the first page is the first `num` elements, the rest paginates
the remainder. -/
theorem paginate_cons {α : Type} (num : Nat) (h : 0 < num) (l : List α) (hl : l ≠ []) :
    paginate l num = l.take num :: paginate (l.drop num) num := by
  have htake_ne : (l.take num).isEmpty = false := by
    cases l with
    | nil => exact absurd rfl hl
    | cons a as =>
      cases num with
      | zero => omega
      | succ m => simp [List.take]
  rcases Nat.lt_or_ge l.length num with hL | hL
  · -- fewer elements than one page
    have h0 : l.length / num = 0 := Nat.div_eq_of_lt hL
    have hd : l.drop num = [] := List.drop_eq_nil_of_le (Nat.le_of_lt hL)
    rw [paginate, h0, hd, paginate_nil]
    simp [List.range_succ, htake_ne]
  · -- at least one full page
    have hdiv : l.length / num = (l.length - num) / num + 1 := Nat.div_eq_sub_div h hL
    rw [paginate, hdiv, List.range_succ_eq_map]
    rw [List.map_cons, List.map_map, List.filter_cons]
    simp only [Nat.zero_mul, List.drop_zero, htake_ne, Bool.not_false, if_pos]
    congr 1
    rw [paginate, List.length_drop]
    congr 1
    apply List.map_congr_left
    intro i _
    simp only [Function.comp_apply, Nat.succ_mul, List.drop_drop, Nat.add_comm]

/-- Pages of `chunkPages` concatenate back to the input. -/
theorem chunkPages_flatten {α : Type} (num : Nat) (h : 0 < num) :
    ∀ l : List α, (chunkPages num l).flatten = l := by
  have main : ∀ (n : Nat) (l : List α), l.length ≤ n → (chunkPages num l).flatten = l := by
    intro n
    induction n with
    | zero =>
      intro l hl
      have hnil : l = [] := List.length_eq_zero.mp (Nat.le_zero.mp hl)
      subst hnil
      simp [chunkPages]
    | succ n ih =>
      intro l hl
      cases l with
      | nil => simp [chunkPages]
      | cons a as =>
        have hdrop : as.drop (num - 1) = (a :: as).drop num := by
          cases num with
          | zero => omega
          | succ m => rfl
        rw [chunkPages, List.flatten_cons, hdrop, ih _ (by
          simp only [List.length_drop, List.length_cons] at *
          omega)]
        exact List.take_append_drop num (a :: as)
  exact fun l => main l.length l (Nat.le_refl _)

/-- `paginate` equals `chunkPages` for positive page sizes. -/
theorem paginate_eq_chunkPages {α : Type} (num : Nat) (h : 0 < num) :
    ∀ l : List α, paginate l num = chunkPages num l := by
  have main : ∀ (n : Nat) (l : List α), l.length ≤ n → paginate l num = chunkPages num l := by
    intro n
    induction n with
    | zero =>
      intro l hl
      have hnil : l = [] := List.length_eq_zero.mp (Nat.le_zero.mp hl)
      subst hnil
      simp [paginate_nil, chunkPages]
    | succ n ih =>
      intro l hl
      cases l with
      | nil => simp [paginate_nil, chunkPages]
      | cons a as =>
        have hdrop : as.drop (num - 1) = (a :: as).drop num := by
          cases num with
          | zero => omega
          | succ m => rfl
        rw [paginate_cons num h _ (by simp), chunkPages, hdrop, ih _ (by
          simp only [List.length_drop, List.length_cons] at *
          omega)]
  exact fun l => main l.length l (Nat.le_refl _)

/-- Every chunk is non-empty and no longer than the page size. -/
theorem chunkPages_mem {α : Type} (num : Nat) (h : 0 < num) :
    ∀ (l : List α), ∀ c ∈ chunkPages num l, c ≠ [] ∧ c.length ≤ num := by
  have main : ∀ (n : Nat) (l : List α), l.length ≤ n →
      ∀ c ∈ chunkPages num l, c ≠ [] ∧ c.length ≤ num := by
    intro n
    induction n with
    | zero =>
      intro l hl
      have hnil : l = [] := List.length_eq_zero.mp (Nat.le_zero.mp hl)
      subst hnil
      simp [chunkPages]
    | succ n ih =>
      intro l hl c hc
      cases l with
      | nil => simp [chunkPages] at hc
      | cons a as =>
        have hdrop : as.drop (num - 1) = (a :: as).drop num := by
          cases num with
          | zero => omega
          | succ m => rfl
        rw [chunkPages, hdrop] at hc
        rcases List.mem_cons.mp hc with hhd | htl
        · subst hhd
          constructor
          · cases num with
            | zero => omega
            | succ m => simp [List.take]
          · simp only [List.length_take]
            exact Nat.min_le_left num (a :: as).length
        · exact ih _ (by
            simp only [List.length_drop, List.length_cons] at *
            omega) c htl
  exact fun l => main l.length l (Nat.le_refl _)

/-- Every chunk except possibly the last is exactly the page size. -/
theorem chunkPages_dropLast {α : Type} (num : Nat) (h : 0 < num) :
    ∀ (l : List α), ∀ c ∈ (chunkPages num l).dropLast, c.length = num := by
  have main : ∀ (n : Nat) (l : List α), l.length ≤ n →
      ∀ c ∈ (chunkPages num l).dropLast, c.length = num := by
    intro n
    induction n with
    | zero =>
      intro l hl
      have hnil : l = [] := List.length_eq_zero.mp (Nat.le_zero.mp hl)
      subst hnil
      simp [chunkPages]
    | succ n ih =>
      intro l hl c hc
      cases l with
      | nil => simp [chunkPages] at hc
      | cons a as =>
        have hdrop : as.drop (num - 1) = (a :: as).drop num := by
          cases num with
          | zero => omega
          | succ m => rfl
        rw [chunkPages, hdrop] at hc
        cases hR : chunkPages num ((a :: as).drop num) with
        | nil => rw [hR] at hc; simp at hc
        | cons b bs =>
          rw [hR, List.dropLast_cons₂] at hc
          have hlen : num < (a :: as).length := by
            by_contra hcon
            have : (a :: as).drop num = [] := List.drop_eq_nil_of_le (by omega)
            rw [this] at hR
            simp [chunkPages] at hR
          rcases List.mem_cons.mp hc with hhd | htl
          · subst hhd
            simp only [List.length_take]
            omega
          · rw [← hR] at htl
            exact ih _ (by
              simp only [List.length_drop, List.length_cons] at *
              omega) c htl
  exact fun l => main l.length l (Nat.le_refl _)

/-- C5: the pagination law.  For every row sequence and positive page
limit, the pages' concatenation reproduces the sequence in order, every
emitted page is non-empty and at most the limit, and every page but
possibly the last is exactly the limit. -/
theorem C5_pagination_law {α : Type} (rows : List α) (num : Nat) (h : 0 < num) :
    (paginate rows num).flatten = rows ∧
    (∀ p ∈ paginate rows num, p ≠ [] ∧ p.length ≤ num) ∧
    (∀ p ∈ (paginate rows num).dropLast, p.length = num) := by
  rw [paginate_eq_chunkPages num h]
  exact ⟨chunkPages_flatten num h rows, fun p hp => chunkPages_mem num h rows p hp,
    fun p hp => chunkPages_dropLast num h rows p hp⟩

/-- Witness instantiating the pagination law at a concrete sequence. -/
theorem C5_pagination_law_witness :
    0 < 2 ∧
    ((paginate [1, 2, 3] 2).flatten = [1, 2, 3] ∧
      (∀ p ∈ paginate [1, 2, 3] 2, p ≠ [] ∧ p.length ≤ 2) ∧
      (∀ p ∈ (paginate [1, 2, 3] 2).dropLast, p.length = 2)) :=
  ⟨by decide, C5_pagination_law [1, 2, 3] 2 (by decide)⟩

instance keyLeTotal (lp : String → Int) : IsTotal Card (keyLe lp) :=
  ⟨fun a b => by simp only [keyLe, cardKey]; omega⟩

instance keyLeTrans (lp : String → Int) : IsTrans Card (keyLe lp) :=
  ⟨fun a b c hab hbc => by
    simp only [keyLe, cardKey] at hab hbc ⊢
    omega⟩

/-- Inserting an element selected by `p` in front of only non-selected
elements: the `p`-filtered result gains the element at the front. -/
theorem filter_orderedInsert_pos {α : Type} (r : α → α → Prop) [DecidableRel r]
    (p : α → Bool) (a : α) (hpa : p a = true)
    (hnr : ∀ b, ¬ r a b → p b = false) :
    ∀ l : List α, (List.orderedInsert r a l).filter p = a :: l.filter p := by
  intro l
  induction l with
  | nil => simp [List.orderedInsert, hpa]
  | cons b bs ih =>
    rw [List.orderedInsert]
    by_cases hr : r a b
    · simp [hr, List.filter_cons, hpa]
    · have hpb : p b = false := hnr b hr
      simp [hr, List.filter_cons, hpb, ih]

/-- Inserting an element not selected by `p` leaves the `p`-filtered
result unchanged. -/
theorem filter_orderedInsert_neg {α : Type} (r : α → α → Prop) [DecidableRel r]
    (p : α → Bool) (a : α) (hpa : p a = false) :
    ∀ l : List α, (List.orderedInsert r a l).filter p = l.filter p := by
  intro l
  induction l with
  | nil => simp [List.orderedInsert, hpa]
  | cons b bs ih =>
    rw [List.orderedInsert]
    by_cases hr : r a b
    · simp [hr, List.filter_cons, hpa]
    · cases hpb : p b <;> simp [hr, List.filter_cons, hpb, ih]

/-- Stability of insertion sort, filter form: when the elements selected
by `p` are mutually `r`-related in both directions (here: equal sort
keys), sorting does not change their relative order. -/
theorem filter_insertionSort {α : Type} (r : α → α → Prop) [DecidableRel r]
    (p : α → Bool) (hsel : ∀ a, p a = true → ∀ b, ¬ r a b → p b = false) :
    ∀ l : List α, (List.insertionSort r l).filter p = l.filter p := by
  intro l
  induction l with
  | nil => simp
  | cons x xs ih =>
    rw [List.insertionSort]
    cases hx : p x
    · rw [filter_orderedInsert_neg r p x hx, ih]
      simp [List.filter_cons, hx]
    · rw [filter_orderedInsert_pos r p x hx (hsel x hx), ih]
      simp [List.filter_cons, hx]

/-- C6: the processed card sequence is the stable sort of the input by
descending list position then ascending card position: it is a
permutation of the input, pairwise ordered by that key, and the input
order is preserved within every key class. -/
theorem C6_sort_is_stable_sort (lp : String → Int) (cards : List Card) :
    (sortCards lp cards).Perm cards ∧
    (sortCards lp cards).Pairwise (fun a b =>
      lp b.idList < lp a.idList ∨ (lp a.idList = lp b.idList ∧ a.pos ≤ b.pos)) ∧
    (∀ v : Int × Int,
      (sortCards lp cards).filter (fun c => decide (cardKey lp c = v)) =
        cards.filter (fun c => decide (cardKey lp c = v))) := by
  refine ⟨List.perm_insertionSort _ _, ?_, ?_⟩
  · have hs := List.sorted_insertionSort (keyLe lp) cards
    exact hs.imp (fun hab => by
      simp only [keyLe, cardKey] at hab
      omega)
  · intro v
    apply filter_insertionSort
    intro a hpa b hnr
    simp only [decide_eq_true_eq] at hpa
    simp only [decide_eq_false_iff_not]
    intro hb
    apply hnr
    have h1 : cardKey lp a = cardKey lp b := by rw [hpa, hb]
    exact Or.inr ⟨congrArg Prod.fst h1, le_of_eq (congrArg Prod.snd h1)⟩

/-- C4: estimate inference for non-epic (feature) cards.  An
unstarted/unscheduled resolved state forces no estimate even when a
per-list default exists; otherwise the first label-table entry (declared
order) carried by the card wins over the per-list default; with no match
and no per-list default the configured default applies.  The last two
conjuncts run the transformer on the claim's example cards: label
`"Medium"` in an in-progress list gives 2; no matching label under
default-estimate 1 gives 1. -/
theorem C4_estimate_inference (cfg : Config) (currentState listName : String)
    (labels : List String) :
    ((currentState = "unstarted" ∨ currentState = "unscheduled") →
      computeEstimate cfg "feature" currentState listName labels = none) ∧
    (∀ p : String × Int,
      ¬(currentState = "unstarted" ∨ currentState = "unscheduled") →
      cfg.labelEstimates.find? (fun q => labels.contains q.1) = some p →
      computeEstimate cfg "feature" currentState listName labels = some p.2) ∧
    (¬(currentState = "unstarted" ∨ currentState = "unscheduled") →
      cfg.labelEstimates.find? (fun q => labels.contains q.1) = none →
      cfg.listEstimates.lookup listName = none →
      computeEstimate cfg "feature" currentState listName labels =
        some cfg.defaultEstimate) ∧
    (transformCard (defaultConfig 0) [("l1", "In Progress Now")] [] none
        { sampleCard with labels := ["Medium"] }).map Row.estimate = .ok (some 2) ∧
    (transformCard (defaultConfig 1) [("l1", "In Progress Now")] [] none sampleCard).map
      Row.estimate = .ok (some 1) := by
  refine ⟨?_, ?_, ?_, by decide, by decide⟩
  · intro hst
    rw [computeEstimate]
    rw [if_neg (by decide), if_pos ⟨rfl, hst⟩]
  · intro p hst hfind
    rw [computeEstimate]
    rw [if_neg (by decide), if_neg (fun hc => hst hc.2), hfind]
  · intro hst hfind hlist
    rw [computeEstimate]
    rw [if_neg (by decide), if_neg (fun hc => hst hc.2), hfind, hlist]
    rfl

/-- Witness for C4: a per-list default is overridden to no estimate in an
unstarted list; the two example cards of the claim. -/
theorem C4_estimate_inference_witness :
    computeEstimate ⟨LIST_STATES, [("Backlog", 3)], LABEL_ESTIMATES, 0⟩ "feature" "unstarted"
        "Backlog" ["Medium"] = none ∧
    computeEstimate (defaultConfig 0) "feature" "started" "In Progress Now" ["Medium"] =
      some 2 ∧
    computeEstimate (defaultConfig 7) "feature" "started" "In Progress Now" [] = some 7 := by
  refine ⟨(C4_estimate_inference _ _ _ _).1 (Or.inl rfl), ?_, ?_⟩
  · exact (C4_estimate_inference (defaultConfig 0) "started" "In Progress Now"
      ["Medium"]).2.1 ("Medium", 2) (by decide) (by decide)
  · exact (C4_estimate_inference (defaultConfig 7) "started" "In Progress Now" []).2.2.1
      (by decide) (by decide) (by decide)

/-- C7: epic downgrade.  Whenever a card's list name maps to the `epic`
sentinel and the transform yields a row, that row is an epic, is
unscheduled, and has no estimate — for every card, so regardless of its
labels. -/
theorem C7_epic_downgrade (cfg : Config) (lists members : List (String × String))
    (ckVar : Option (List (String × String))) (card : Card) (listName : String) (row : Row)
    (hl : lists.lookup card.idList = some listName)
    (hs : cfg.listStates.lookup listName = some "epic")
    (hr : transformCard cfg lists members ckVar card = .ok row) :
    row.storyType = "epic" ∧ row.currentState = "unscheduled" ∧ row.estimate = none := by
  rw [transformCard.eq_def, hl] at hr
  simp only [hs, Option.getD_some, reduceIte] at hr
  cases hext : extractNameTags card.name with
  | error e => rw [hext] at hr; simp at hr
  | ok pr =>
    obtain ⟨name, extra⟩ := pr
    rw [hext] at hr
    simp only at hr
    cases how : (match card.idMembers with
        | [] => Except.ok ""
        | m :: _ =>
          match members.lookup m with
          | some n => Except.ok n
          | none => Except.error (TransformError.malformedInput m)) with
    | error e => rw [how] at hr; simp at hr
    | ok owner =>
      rw [how] at hr
      simp only at hr
      cases htk : (match card.checklists with
          | none => Except.ok []
          | some cls => flattenChecklists ckVar cls) with
      | error e => rw [htk] at hr; simp at hr
      | ok tasks =>
        rw [htk] at hr
        simp only [Except.ok.injEq] at hr
        subst hr
        refine ⟨rfl, rfl, ?_⟩
        rw [computeEstimate, if_pos rfl]

/-- Witness for C7: a labelled card in the `Epics / Triage` list. -/
theorem C7_epic_downgrade_witness :
    (transformCard (defaultConfig 0) [("l1", "Epics / Triage")] [] none
        { sampleCard with labels := ["Medium"] }).map
        (fun row => (row.storyType, row.currentState, row.estimate)) =
      .ok ("epic", "unscheduled", none) := by
  have hrow : transformCard (defaultConfig 0) [("l1", "Epics / Triage")] [] none
      { sampleCard with labels := ["Medium"] } =
      .ok
        { title := "Plain title"
          description := "Body\nImported from https://trello.example/c/abc"
          ownedBy := ""
          requestedBy := ""
          labels := ["Medium"]
          currentState := "unscheduled"
          storyType := "epic"
          estimate := none
          tasks := [] } := by decide
  have h := C7_epic_downgrade (defaultConfig 0) [("l1", "Epics / Triage")] [] none
    { sampleCard with labels := ["Medium"] } "Epics / Triage" _ (by decide) (by decide) hrow
  rw [hrow]
  simp [Except.map, h.1, h.2.1, h.2.2]

/-- C9: a card in a list whose name is absent from the state table is
unscheduled, and the raw list name is among the row's labels. -/
theorem C9_unmapped_list (cfg : Config) (lists members : List (String × String))
    (ckVar : Option (List (String × String))) (card : Card) (listName : String) (row : Row)
    (hl : lists.lookup card.idList = some listName)
    (hs : cfg.listStates.lookup listName = none)
    (hr : transformCard cfg lists members ckVar card = .ok row) :
    row.currentState = "unscheduled" ∧ listName ∈ row.labels := by
  rw [transformCard.eq_def, hl] at hr
  simp only [hs, Option.getD_none, Option.isNone_none, reduceIte] at hr
  cases hext : extractNameTags card.name with
  | error e => rw [hext] at hr; simp at hr
  | ok pr =>
    obtain ⟨name, extra⟩ := pr
    rw [hext] at hr
    simp only at hr
    cases how : (match card.idMembers with
        | [] => Except.ok ""
        | m :: _ =>
          match members.lookup m with
          | some n => Except.ok n
          | none => Except.error (TransformError.malformedInput m)) with
    | error e => rw [how] at hr; simp at hr
    | ok owner =>
      rw [how] at hr
      simp only at hr
      cases htk : (match card.checklists with
          | none => Except.ok []
          | some cls => flattenChecklists ckVar cls) with
      | error e => rw [htk] at hr; simp at hr
      | ok tasks =>
        rw [htk] at hr
        simp only [Except.ok.injEq] at hr
        subst hr
        exact ⟨rfl, by simp⟩

/-- Witness for C9: a card in the unmapped list `"Weird List"`. -/
theorem C9_unmapped_list_witness :
    (transformCard (defaultConfig 0) [("l1", "Weird List")] [] none sampleCard).map
        (fun row => (row.currentState, decide ("Weird List" ∈ row.labels))) =
      .ok ("unscheduled", true) := by
  have hrow : transformCard (defaultConfig 0) [("l1", "Weird List")] [] none sampleCard =
      .ok
        { title := "Plain title"
          description := "Body\nImported from https://trello.example/c/abc"
          ownedBy := ""
          requestedBy := ""
          labels := ["Weird List"]
          currentState := "unscheduled"
          storyType := "feature"
          estimate := none
          tasks := [] } := by decide
  have h := C9_unmapped_list (defaultConfig 0) [("l1", "Weird List")] [] none sampleCard
    "Weird List" _ (by decide) (by decide) hrow
  rw [hrow]
  simp [Except.map, h.1, h.2]

/-- C10: the Description cell is the raw description plus a newline (both
omitted when the description is absent or empty) followed by exactly
`"Imported from <url>"`; it is never empty and always ends with the
card's URL. -/
theorem C10_description_cell (cfg : Config) (lists members : List (String × String))
    (ckVar : Option (List (String × String))) (card : Card) (row : Row)
    (hr : transformCard cfg lists members ckVar card = .ok row) :
    row.description =
      (match card.desc with
       | none => ""
       | some d => if d = "" then "" else d ++ "\n") ++ ("Imported from " ++ card.url) ∧
    row.description ≠ "" ∧
    card.url.data <:+ row.description.data := by
  rw [transformCard.eq_def] at hr
  cases hl : lists.lookup card.idList with
  | none => rw [hl] at hr; simp at hr
  | some listName =>
    rw [hl] at hr
    simp only at hr
    cases hext : extractNameTags card.name with
    | error e => rw [hext] at hr; simp at hr
    | ok pr =>
      obtain ⟨name, extra⟩ := pr
      rw [hext] at hr
      simp only at hr
      cases how : (match card.idMembers with
          | [] => Except.ok ""
          | m :: _ =>
            match members.lookup m with
            | some n => Except.ok n
            | none => Except.error (TransformError.malformedInput m)) with
      | error e => rw [how] at hr; simp at hr
      | ok owner =>
        rw [how] at hr
        simp only at hr
        cases htk : (match card.checklists with
            | none => Except.ok []
            | some cls => flattenChecklists ckVar cls) with
        | error e => rw [htk] at hr; simp at hr
        | ok tasks =>
          rw [htk] at hr
          simp only [Except.ok.injEq] at hr
          subst hr
          refine ⟨?_, ?_, ?_⟩
          · show (if card.desc.getD "" ≠ "" then card.desc.getD "" ++ "\n" else "") ++
                "Imported from " ++ card.url = _
            cases card.desc with
            | none => simp
            | some d =>
              by_cases hd : d = ""
              · simp [hd]
              · show (if d ≠ "" then d ++ "\n" else "") ++ "Imported from " ++ card.url =
                  (if d = "" then "" else d ++ "\n") ++ ("Imported from " ++ card.url)
                rw [if_pos hd, if_neg hd, String.append_assoc]
          · intro hemp
            have hlen := congrArg String.length hemp
            rw [String.length_append, String.length_append] at hlen
            have h14 : ("Imported from " : String).length = 14 := rfl
            have h0 : ("" : String).length = 0 := rfl
            rw [h14, h0] at hlen
            omega
          · show card.url.data <:+ ((_ ++ "Imported from ") ++ card.url).data
            rw [String.data_append]
            exact List.suffix_append _ _

/-- Witness for C10: the description cell of a concrete card with a
non-empty description. -/
theorem C10_description_cell_witness :
    (transformCard (defaultConfig 0) [("l1", "Backlog")] [] none sampleCard).map
        (fun row => (row.description,
          decide (row.description ≠ "") &&
            decide (sampleCard.url.data <:+ row.description.data))) =
      .ok ("Body\nImported from https://trello.example/c/abc", true) := by
  have hrow : transformCard (defaultConfig 0) [("l1", "Backlog")] [] none sampleCard =
      .ok
        { title := "Plain title"
          description := "Body\nImported from https://trello.example/c/abc"
          ownedBy := ""
          requestedBy := ""
          labels := []
          currentState := "unstarted"
          storyType := "feature"
          estimate := none
          tasks := [] } := by decide
  have h := C10_description_cell (defaultConfig 0) [("l1", "Backlog")] [] none sampleCard
    _ hrow
  rw [hrow]
  simp only [Except.map, Except.ok.injEq]
  refine congrArg₂ Prod.mk rfl ?_
  rw [decide_eq_true h.2.1, decide_eq_true h.2.2]
  rfl

theorem effectiveState_some (m : List (String × String)) (item : CheckItem) :
    effectiveState (some m) item = .ok (effState m item) := rfl

theorem exceptBind_ok {ε α β : Type} (a : α) (f : α → Except ε β) :
    (Except.ok (ε := ε) a >>= f) = f a := rfl

theorem exceptBind_err {ε α β : Type} (e : ε) (f : α → Except ε β) :
    (Except.error (α := α) e >>= f) = .error e := rfl

theorem checkboxStatus_incomplete : checkboxStatus "incomplete" = .ok "not completed" := by
  decide

theorem checkboxStatus_complete : checkboxStatus "complete" = .ok "completed" := by decide

/-- When every item's effective state is recognized, the item loop emits,
per item in order, the prefixed name and the mapped status. -/
theorem flattenItems_ok_of_valid (m : List (String × String)) (pre : String) :
    ∀ items : List CheckItem,
      (∀ it ∈ items, effState m it = "incomplete" ∨ effState m it = "complete") →
      flattenItems (some m) pre items = .ok (items.flatMap (fun it =>
        [pre ++ it.name,
         if effState m it = "incomplete" then "not completed" else "completed"])) := by
  intro items
  induction items with
  | nil => intro _; rfl
  | cons it rest ih =>
    intro hval
    have hit := hval it (by simp)
    have hrest := ih (fun x hx => hval x (by simp [hx]))
    rcases hit with h | h
    · simp [flattenItems, effectiveState_some, exceptBind_ok, h,
        checkboxStatus_incomplete, hrest]
    · have hne : effState m it ≠ "incomplete" := by rw [h]; decide
      simp [flattenItems, effectiveState_some, exceptBind_ok, h,
        checkboxStatus_complete, hrest, hne]

/-- When some item's effective state is not recognized, the item loop
raises `UnknownCheckboxStateError` carrying such a state. -/
theorem flattenItems_err_of_invalid (m : List (String × String)) (pre : String) :
    ∀ items : List CheckItem,
      (∃ it ∈ items, ¬(effState m it = "incomplete" ∨ effState m it = "complete")) →
      ∃ s, flattenItems (some m) pre items = .error (.unknownCheckboxState s) ∧
        ¬(s = "incomplete" ∨ s = "complete") ∧ ∃ it ∈ items, effState m it = s := by
  intro items
  induction items with
  | nil => intro h; simp at h
  | cons it rest ih =>
    intro hbad
    by_cases hit : effState m it = "incomplete" ∨ effState m it = "complete"
    · have hbad2 : ∃ x ∈ rest, ¬(effState m x = "incomplete" ∨ effState m x = "complete") := by
        rcases hbad with ⟨x, hx, hnx⟩
        rcases List.mem_cons.mp hx with hh | hxr
        · subst hh; exact absurd hit hnx
        · exact ⟨x, hxr, hnx⟩
      obtain ⟨s, hs, hns, x, hxr, hxs⟩ := ih hbad2
      refine ⟨s, ?_, hns, x, by simp [hxr], hxs⟩
      rcases hit with h | h
      · simp [flattenItems, effectiveState_some, exceptBind_ok, h,
          checkboxStatus_incomplete, hs, exceptBind_err]
      · simp [flattenItems, effectiveState_some, exceptBind_ok, h,
          checkboxStatus_complete, hs, exceptBind_err]
    · refine ⟨effState m it, ?_, hit, it, by simp, rfl⟩
      have ha : effState m it ≠ "incomplete" := fun hh => hit (Or.inl hh)
      have hb : effState m it ≠ "complete" := fun hh => hit (Or.inr hh)
      have ha2 : (effState m it == "incomplete") = false := beq_eq_false_iff_ne.mpr ha
      have hb2 : (effState m it == "complete") = false := beq_eq_false_iff_ne.mpr hb
      have hlk : CHECKBOX_STATES.lookup (effState m it) = none := by
        simp [CHECKBOX_STATES, List.lookup, ha2, hb2]
      simp [flattenItems, effectiveState_some, exceptBind_ok, exceptBind_err,
        checkboxStatus, hlk]

/-- C8: task flattening.  The name prefix is empty exactly for the
sentinel checklist name `"Checklist"` and `"<name>: "` otherwise; each
item, in order, contributes the pair (prefix + name, status), the status
being the card-level override when present for that id, else the item's
own state, mapped `incomplete` → `"not completed"`, `complete` →
`"completed"`; any other effective state raises
`UnknownCheckboxStateError`. -/
theorem C8_task_flattening (m : List (String × String)) (cl : Checklist) :
    flattenChecklist (some m) cl =
      flattenItems (some m) (if cl.name = "Checklist" then "" else cl.name ++ ": ")
        cl.checkItems ∧
    ((∀ it ∈ cl.checkItems, effState m it = "incomplete" ∨ effState m it = "complete") →
      flattenChecklist (some m) cl = .ok (cl.checkItems.flatMap (fun it =>
        [(if cl.name = "Checklist" then "" else cl.name ++ ": ") ++ it.name,
         if effState m it = "incomplete" then "not completed" else "completed"]))) ∧
    ((∃ it ∈ cl.checkItems, ¬(effState m it = "incomplete" ∨ effState m it = "complete")) →
      ∃ s, flattenChecklist (some m) cl = .error (.unknownCheckboxState s) ∧
        ¬(s = "incomplete" ∨ s = "complete") ∧ ∃ it ∈ cl.checkItems, effState m it = s) := by
  have hpre : flattenChecklist (some m) cl =
      flattenItems (some m) (if cl.name = "Checklist" then "" else cl.name ++ ": ")
        cl.checkItems := by
    by_cases hn : cl.name = "Checklist" <;> simp [flattenChecklist, hn]
  refine ⟨hpre, ?_, ?_⟩
  · intro hval
    rw [hpre]
    exact flattenItems_ok_of_valid m _ cl.checkItems hval
  · intro hbad
    obtain ⟨s, hs, hns, x, hx, hxs⟩ := flattenItems_err_of_invalid m
      (if cl.name = "Checklist" then "" else cl.name ++ ": ") cl.checkItems hbad
    exact ⟨s, by rw [hpre]; exact hs, hns, x, hx, hxs⟩

/-- Witness for C8: the claim's two example checklists, plus an unknown
raw state. -/
theorem C8_task_flattening_witness :
    flattenChecklist (some []) (Checklist.mk "Checklist"
        [CheckItem.mk "i1" "Write tests" "incomplete"]) =
      .ok ["Write tests", "not completed"] ∧
    flattenChecklist (some []) (Checklist.mk "QA" [CheckItem.mk "i2" "Deploy" "complete"]) =
      .ok ["QA: Deploy", "completed"] ∧
    (∃ s, flattenChecklist (some []) (Checklist.mk "QA" [CheckItem.mk "i3" "X" "weird"]) =
      .error (.unknownCheckboxState s) ∧ ¬(s = "incomplete" ∨ s = "complete")) := by
  refine ⟨?_, ?_, ?_⟩
  · have h := (C8_task_flattening [] (Checklist.mk "Checklist"
      [CheckItem.mk "i1" "Write tests" "incomplete"])).2.1 (by decide)
    exact h.trans (by decide)
  · have h := (C8_task_flattening [] (Checklist.mk "QA"
      [CheckItem.mk "i2" "Deploy" "complete"])).2.1 (by decide)
    exact h.trans (by decide)
  · obtain ⟨s, hs, hns, _⟩ := (C8_task_flattening [] (Checklist.mk "QA"
      [CheckItem.mk "i3" "X" "weird"])).2.2 (by decide)
    exact ⟨s, hs, hns⟩

end TrelloToPivotal
